import Mathlib

/-!
# pipng: layer placement and the interactive run loop

A shallow embedding of `main` in `src/pipng/pipng.c`:

* the image load loop (lines 190-222),
* the layer creation / placement loop (lines 258-310),
* the run loop with its key switch and timeout (lines 314-401).

The compositor helpers (`createResourceImageLayer`, `addElementImageLayerOffset`,
`moveImageLayer`, `vc_dispmanx_update_*`) are not part of `pipng.c`; `main` is
embedded as a producer of the calls it makes to them (`Call`), and a small
display model, written from the specification, interprets those calls.

Machine integers are `Int`/`Nat` with explicit wrapping: `toInt32` for
`int32_t` arithmetic, `% 2^32` for `uint32_t`, `% 2^16` for `uint16_t`.
The `assert`s on the results of the compositor calls are taken to hold.
-/

namespace Pipng

/-! ## Machine integers and constants -/

/-- Two's-complement reduction of an integer to the `int32_t` range. -/
def toInt32 (v : Int) : Int := (v + 2147483648) % 4294967296 - 2147483648

/-- Conversion of an `int` to `uint32_t` (reduction modulo `2^32`). -/
def toUInt32 (v : Int) : Nat := (v % 4294967296).toNat

/-- The macro `XOFFSCREEN` (line 59). -/
def XOFFSCREEN : Int := 10000

/-- The local constant `sleepMilliseconds` (line 317). -/
def sleepMilliseconds : Nat := 10

/-- The libc function `tolower` in the "C" locale (the program never calls
`setlocale`): the letters `A`..`Z` (65..90) map to `a`..`z`, every other
value is returned unchanged. -/
def tolower (c : Int) : Int := if 65 ≤ c ∧ c ≤ 90 then c + 32 else c

/-! ## Data -/

/-- The fields of `IMAGE_T` that `main` reads (both `int32_t`; the type is
declared in a header that is not part of `pipng.c`). -/
structure IMAGE_T where
  width : Int
  height : Int
  deriving DecidableEq, Repr

/-- The fields of `DISPMANX_MODEINFO_T` that `main` reads (both `int32_t`). -/
structure MODEINFO_T where
  width : Int
  height : Int
  deriving DecidableEq, Repr

/-- The option variables of `main` after the `getopt` loop (lines 100-112),
with their C types: `background : uint16_t`, `layer, xOffset, yOffset :
int32_t`, `timeout : uint32_t`, the rest `bool`. -/
structure Options where
  background : Nat := 15
  layer : Int := 1
  xOffset : Int := 0
  yOffset : Int := 0
  timeout : Nat := 0
  xOffsetSet : Bool := false
  yOffsetSet : Bool := false
  interactive : Bool := true
  startInvisible : Bool := false
  hideLowerLayers : Bool := false
  deriving DecidableEq, Repr

/-- The assignment `timeout = atoi(optarg)` (line 156): the `int` returned by
`atoi` is converted to `uint32_t`. -/
def parseTimeout (atoiResult : Int) : Nat := toUInt32 atoiResult

/-- A position `(x, y)` in pixels. -/
abbrev Pos := Int × Int

/-- The calls `main` makes to the layer helpers and to the compositor, with
the arguments that matter here.  The index `i` of an image call stands for
the argument `&imageLayer[i]`. -/
inductive Call where
  | initBackgroundLayer (colour : Nat) (layer : Int)
  | addElementBackgroundLayer
  | createResourceImageLayer (i : Nat) (layer : Int)
  | addElementImageLayerOffset (i : Nat) (x y : Int) (hideLowerLayers : Bool)
  | moveImageLayer (i : Nat) (x y : Int)
  | updateStart
  | updateSubmitSync
  deriving DecidableEq, Repr

/-! ## The image load loop (lines 190-222) -/

/-- One filled slot: `imagePath[i]` and `imageLayer[i].image`. -/
structure Slot where
  path : String
  image : IMAGE_T
  deriving DecidableEq, Repr

/-- The body of the load loop for slot `i` and argument `p` (lines 201-218):
`"-"` is decoded from standard input with `loadPngFile`, anything else from
the path with `loadPng`.  The two decoders are external; `loadPngFile` is
indexed by the slot being filled, since what standard input yields depends on
when it is read.  `none` is a failed decode. -/
def loadSlot (loadPng : String → Option IMAGE_T) (loadPngFile : Nat → Option IMAGE_T)
    (i : Nat) (p : String) : Option IMAGE_T :=
  if p = "-" then loadPngFile i else loadPng p

/-- The loop `for (int i = 0; i < 16; i++)` of lines 194-222.  The first
argument counts the iterations that remain (`16 - i`), `i` is the loop
counter, the list is `argv[optind..argc)`.  The result is the list of filled
slots from `i` on; `none` is `exit(EXIT_FAILURE)` after a failed decode. -/
def loadLoop (loadPng : String → Option IMAGE_T) (loadPngFile : Nat → Option IMAGE_T) :
    Nat → Nat → List String → Option (List Slot)
  | 0, _, _ => some []
  | _ + 1, _, [] => some []
  | k + 1, i, p :: rest =>
    match loadSlot loadPng loadPngFile i p with
    | none => none
    | some im =>
      match loadLoop loadPng loadPngFile k (i + 1) rest with
      | none => none
      | some slots => some (⟨p, im⟩ :: slots)

/-- The whole load loop, from `i = 0` with sixteen iterations available. -/
def loadImages (loadPng : String → Option IMAGE_T) (loadPngFile : Nat → Option IMAGE_T)
    (args : List String) : Option (List Slot) :=
  loadLoop loadPng loadPngFile 16 0 args

/-! ## Layer creation and initial placement (lines 258-310) -/

/-- Line 283 / 287: the value stored in `xPos[i]`. -/
def homeX (o : Options) (info : MODEINFO_T) (im : IMAGE_T) : Int :=
  if o.xOffsetSet = false then Int.tdiv (toInt32 (info.width - im.width)) 2 else o.xOffset

/-- Line 292 / 296: the value stored in `yPos[i]`. -/
def homeY (o : Options) (info : MODEINFO_T) (im : IMAGE_T) : Int :=
  if o.yOffsetSet = false then Int.tdiv (toInt32 (info.height - im.height)) 2 else o.yOffset

/-- What the placement loop leaves behind: the filled parts of `xPos` and
`yPos`, the calls made, and the final value of `layer`. -/
structure Placement where
  xPos : List Int
  yPos : List Int
  calls : List Call
  layer : Int
  deriving DecidableEq, Repr

/-- The loop `for (int i = 0; i < images; i++)` of lines 277-307, run over
the images of the slots from `i` on, with the current value of `layer`. -/
def placeImages (o : Options) (info : MODEINFO_T) : List IMAGE_T → Nat → Int → Placement
  | [], _, layer => ⟨[], [], [], layer⟩
  | im :: rest, i, layer =>
    let x := homeX o info im
    let y := homeY o info im
    let r := placeImages o info rest (i + 1) (toInt32 (layer + 1))
    ⟨x :: r.xPos, y :: r.yPos,
      Call.createResourceImageLayer i layer ::
        Call.addElementImageLayerOffset i (if o.startInvisible then XOFFSCREEN else x) y
          o.hideLowerLayers :: r.calls,
      r.layer⟩

/-- Lines 258-310: every call made between opening the display and entering
the run loop. -/
def startupCalls (o : Options) (info : MODEINFO_T) (imgs : List IMAGE_T) : List Call :=
  (if o.background > 0 then [Call.initBackgroundLayer o.background (toInt32 (o.layer - 1))]
    else []) ++
  [Call.updateStart] ++
  (if o.background > 0 then [Call.addElementBackgroundLayer] else []) ++
  (placeImages o info imgs 0 o.layer).calls ++
  [Call.updateSubmitSync]

/-- The z-orders handed to the layer constructors, in call order. -/
def zOrders : List Call → List Int
  | [] => []
  | Call.initBackgroundLayer _ layer :: cs => layer :: zOrders cs
  | Call.createResourceImageLayer _ layer :: cs => layer :: zOrders cs
  | _ :: cs => zOrders cs

/-- The z-order given to image `i`, if a layer was created for it. -/
def imageZ : List Call → Nat → Option Int
  | [], _ => none
  | Call.createResourceImageLayer j layer :: cs, i => if j = i then some layer else imageZ cs i
  | _ :: cs, i => imageZ cs i

/-- The z-order given to the background layer, if one was created. -/
def backgroundZ : List Call → Option Int
  | [] => none
  | Call.initBackgroundLayer _ layer :: _ => some layer
  | _ :: cs => backgroundZ cs

/-! ## The display model -/

/-- Modelled from the spec: the compositor side of the image layers, which
`pipng.c` only reaches through `addElementImageLayerOffset`, `moveImageLayer`
and the `vc_dispmanx_update_*` calls.  `pos i` is the position at which image
layer `i` is displayed (`none` before it is added); `pending` is the queue of
the open Update Transaction, `none` when no transaction is open. -/
structure Display where
  pos : Nat → Option Pos
  pending : Option (List (Nat × Pos))

/-- Modelled from the spec: applying the queued position changes of a
transaction, in the order they were queued. -/
def applyMoves (pos : Nat → Option Pos) (q : List (Nat × Pos)) : Nat → Option Pos :=
  q.foldl (fun p e => Function.update p e.1 (some e.2)) pos

/-- Modelled from the spec (4.3, 4.4): `begin` opens a transaction; `addTo`
and `move` record a position inside the open transaction and do "not take
effect until the transaction is submitted"; `submit` applies all queued
changes together.  Creating a resource or the background does not touch an
image position. -/
def Display.exec (d : Display) : Call → Display
  | Call.updateStart => { d with pending := some [] }
  | Call.addElementImageLayerOffset i x y _ =>
    { d with pending := d.pending.map (fun q => q ++ [(i, (x, y))]) }
  | Call.moveImageLayer i x y =>
    { d with pending := d.pending.map (fun q => q ++ [(i, (x, y))]) }
  | Call.updateSubmitSync =>
    match d.pending with
    | some q => { pos := applyMoves d.pos q, pending := none }
    | none => d
  | _ => d

/-- Running a sequence of calls against the display. -/
def Display.run (d : Display) (calls : List Call) : Display :=
  calls.foldl Display.exec d

/-- The display before `main` adds anything. -/
def Display.empty : Display := ⟨fun _ => none, none⟩

/-! ## The run loop (lines 314-401) -/

/-- What the run loop reads but never writes: `images`, the filled parts of
`xPos` and `yPos`, `timeout` and `interactive`. -/
structure Config where
  images : Nat
  xPos : List Int
  yPos : List Int
  timeout : Nat
  interactive : Bool
  deriving DecidableEq, Repr

/-- The variables the run loop writes: `activeImage : uint16_t`, the flag
`run`, and `currentTime : uint32_t`. -/
structure Ctl where
  activeImage : Nat
  run : Bool
  currentTime : Nat
  deriving DecidableEq, Repr

/-- The call `moveImageLayer(&imageLayer[i], XOFFSCREEN, 0, update)`. -/
def parkAt (i : Nat) : Call := Call.moveImageLayer i XOFFSCREEN 0

/-- The call `moveImageLayer(&imageLayer[i], xPos[i], yPos[i], update)`: the
three arrays are read at the same index `i`. -/
def showAt (cfg : Config) (i : Nat) : Call :=
  Call.moveImageLayer i (cfg.xPos.getD i 0) (cfg.yPos.getD i 0)

/-- Lines 326-390: `c = tolower(c)` followed by the `switch (c)`.  Returns
the calls made and the updated variables. -/
def handleKey (cfg : Config) (s : Ctl) (key : Int) : List Call × Ctl :=
  let c := tolower key
  if 48 ≤ c ∧ c ≤ 57 then
    let num := (c - 48).toNat
    if num < cfg.images then
      ([Call.updateStart, parkAt s.activeImage, showAt cfg num, Call.updateSubmitSync],
        { s with activeImage := num % 65536 })
    else ([], s)
  else if c = 118 then
    ([Call.updateStart] ++ (List.range cfg.images).map (showAt cfg) ++ [Call.updateSubmitSync], s)
  else if c = 105 then
    ([Call.updateStart] ++ (List.range cfg.images).map parkAt ++ [Call.updateSubmitSync], s)
  else if c = 99 ∨ c = 27 then ([], { s with run := false })
  else ([], s)

/-- Lines 397-400: `currentTime += sleepMilliseconds` in `uint32_t`, then the
timeout test. -/
def tick (cfg : Config) (s : Ctl) : Ctl :=
  let t := (s.currentTime + sleepMilliseconds) % 4294967296
  { s with currentTime := t,
           run := if cfg.timeout ≠ 0 ∧ t ≥ cfg.timeout then false else s.run }

/-- The controller together with the display it drives. -/
structure State where
  ctl : Ctl
  display : Display

/-- One pass through the loop body (lines 321-400).  `key` is what
`keyPressed(&c)` delivers in this pass: `none` when it returns false.  With
`interactive` off, `keyPressed` is not called at all. -/
def iteration (cfg : Config) (key : Option Int) (s : State) : List Call × State :=
  let r : List Call × Ctl :=
    match cfg.interactive, key with
    | true, some c => handleKey cfg s.ctl c
    | _, _ => ([], s.ctl)
  (r.1, ⟨tick cfg r.2, s.display.run r.1⟩)

/-- The loop `while (run)` over a finite sequence of passes, one entry of
`keys` per pass; it stops early when `run` is false at the top of a pass.
Returns all calls made and the state reached. -/
def runLoop (cfg : Config) : List (Option Int) → State → List Call × State
  | [], s => ([], s)
  | k :: ks, s =>
    if s.ctl.run then
      let r := iteration cfg k s
      let r2 := runLoop cfg ks r.2
      (r.1 ++ r2.1, r2.2)
    else ([], s)

/-- The key handling alone, applied to controller and display: what a key
press does within one pass, before the clock is advanced. -/
def pressKey (cfg : Config) (s : State) (key : Int) : State :=
  ⟨(handleKey cfg s.ctl key).2, s.display.run (handleKey cfg s.ctl key).1⟩

/-- The values of the loop variables at line 314, when the loop is entered. -/
def Ctl.init : Ctl := ⟨0, true, 0⟩

/-- The configuration the run loop sees after the startup of lines 190-310. -/
def mainConfig (o : Options) (info : MODEINFO_T) (imgs : List IMAGE_T) : Config :=
  { images := imgs.length,
    xPos := (placeImages o info imgs 0 o.layer).xPos,
    yPos := (placeImages o info imgs 0 o.layer).yPos,
    timeout := o.timeout,
    interactive := o.interactive }

/-- The state in which the run loop is entered. -/
def mainState (o : Options) (info : MODEINFO_T) (imgs : List IMAGE_T) : State :=
  ⟨Ctl.init, Display.empty.run (startupCalls o info imgs)⟩

/-- The function `main` from the end of option parsing to the end of the run
loop, for a finite sequence of passes: the usage check of line 183, the load
loop, the startup calls and the run loop.  `none` is `exit(EXIT_FAILURE)`
(usage or a failed decode).  Signal delivery and the teardown after the loop
(lines 405-422) are left out. -/
def main (loadPng : String → Option IMAGE_T) (loadPngFile : Nat → Option IMAGE_T)
    (o : Options) (info : MODEINFO_T) (args : List String) (keys : List (Option Int)) :
    Option (List Call × State) :=
  if args.length = 0 ∧ o.background ≤ 0 then none
  else
    match loadImages loadPng loadPngFile args with
    | none => none
    | some slots =>
      let imgs := slots.map Slot.image
      let r := runLoop (mainConfig o info imgs) keys (mainState o info imgs)
      some (startupCalls o info imgs ++ r.1, r.2)

/-- The digit character for `d`: `'0' + d`. -/
def digitKey (d : Nat) : Int := 48 + d

/-- The position changes a sequence of calls queues in an open transaction. -/
def queued : List Call → List (Nat × Pos)
  | [] => []
  | Call.addElementImageLayerOffset i x y _ :: cs => (i, (x, y)) :: queued cs
  | Call.moveImageLayer i x y :: cs => (i, (x, y)) :: queued cs
  | _ :: cs => queued cs

/-- The position `xPos[i], yPos[i]` as the run loop reads it. -/
def Config.home (cfg : Config) (i : Nat) : Pos := (cfg.xPos.getD i 0, cfg.yPos.getD i 0)

/-- The offscreen sentinel `(XOFFSCREEN, 0)` used by the run loop. -/
def offscreen : Pos := (XOFFSCREEN, 0)

/-- The position passed to `addElementImageLayerOffset` for an image (lines
300-301). -/
def initPos (o : Options) (info : MODEINFO_T) (im : IMAGE_T) : Pos :=
  (if o.startInvisible then XOFFSCREEN else homeX o info im, homeY o info im)

/-! ## Sample inputs -/

/-- The option values of `-b 0x000F -x 0 -y 0`. -/
def sampleOptions : Options := { xOffset := 0, yOffset := 0, xOffsetSet := true, yOffsetSet := true }

/-- A display of 800 by 600 pixels. -/
def sampleInfo : MODEINFO_T := ⟨800, 600⟩

/-- Two decoded images, 100 by 100 and 200 by 300 pixels. -/
def sampleImages : List IMAGE_T := [⟨100, 100⟩, ⟨200, 300⟩]

/-- Seventeen positional arguments. -/
def sampleArgs : List String :=
  ["a0", "a1", "a2", "a3", "a4", "a5", "a6", "a7", "a8", "a9",
   "a10", "a11", "a12", "a13", "a14", "a15", "a16"]

/-- A decoder for the sample: every path decodes to a 1 by 1 image. -/
def sampleLoadPng : String → Option IMAGE_T := fun _ => some ⟨1, 1⟩

/-- A decoder for the sample: standard input decodes to a 1 by 1 image. -/
def sampleLoadPngFile : Nat → Option IMAGE_T := fun _ => some ⟨1, 1⟩

/-- The run-loop configuration of the sample. -/
def sampleConfig : Config := mainConfig sampleOptions sampleInfo sampleImages

/-- The state in which the sample enters the run loop. -/
def sampleState : State := mainState sampleOptions sampleInfo sampleImages

end Pipng

namespace Pipng

/-! ## The display model: running a transaction -/

theorem applyMoves_cons (p : Nat → Option Pos) (e : Nat × Pos) (q : List (Nat × Pos)) :
    applyMoves p (e :: q) = applyMoves (Function.update p e.1 (some e.2)) q := rfl

theorem applyMoves_of_not_mem (q : List (Nat × Pos)) (p : Nat → Option Pos) (j : Nat)
    (hj : j ∉ q.map Prod.fst) : applyMoves p q j = p j := by
  induction q generalizing p with
  | nil => rfl
  | cons e q ih =>
    simp only [List.map_cons, List.mem_cons, not_or] at hj
    rw [applyMoves_cons, ih _ hj.2, Function.update_noteq hj.1]

theorem applyMoves_of_mem (q : List (Nat × Pos)) (p : Nat → Option Pos) (j : Nat) (v : Pos)
    (hq : (q.map Prod.fst).Nodup) (hj : (j, v) ∈ q) : applyMoves p q j = some v := by
  induction q generalizing p with
  | nil => simp at hj
  | cons e q ih =>
    simp only [List.map_cons, List.nodup_cons] at hq
    rw [applyMoves_cons]
    rcases List.mem_cons.1 hj with h | h
    · subst h
      rw [applyMoves_of_not_mem q _ _ hq.1]
      simp
    · exact ih _ hq.2 h

theorem run_nil (d : Display) : d.run [] = d := rfl

theorem run_cons (d : Display) (c : Call) (cs : List Call) :
    d.run (c :: cs) = (d.exec c).run cs := rfl

theorem run_append (d : Display) (cs ds : List Call) :
    d.run (cs ++ ds) = (d.run cs).run ds := by
  simp [Display.run, List.foldl_append]

/-- Calls other than `updateStart` / `updateSubmitSync` only extend the queue
of the open transaction. -/
theorem run_queue (cs : List Call) (p : Nat → Option Pos) (q : List (Nat × Pos))
    (hs : Call.updateStart ∉ cs) (he : Call.updateSubmitSync ∉ cs) :
    Display.run ⟨p, some q⟩ cs = ⟨p, some (q ++ queued cs)⟩ := by
  induction cs generalizing q with
  | nil => simp [run_nil, queued]
  | cons c cs ih =>
    simp only [List.mem_cons, not_or] at hs he
    rw [run_cons]
    cases c with
    | updateStart => exact absurd rfl hs.1
    | updateSubmitSync => exact absurd rfl he.1
    | initBackgroundLayer a b => simpa [Display.exec, queued] using ih q hs.2 he.2
    | addElementBackgroundLayer => simpa [Display.exec, queued] using ih q hs.2 he.2
    | createResourceImageLayer a b => simpa [Display.exec, queued] using ih q hs.2 he.2
    | addElementImageLayerOffset i x y h =>
      simpa [Display.exec, queued] using ih (q ++ [(i, (x, y))]) hs.2 he.2
    | moveImageLayer i x y =>
      simpa [Display.exec, queued] using ih (q ++ [(i, (x, y))]) hs.2 he.2

/-- A whole transaction: `updateStart`, a body, `updateSubmitSync`. -/
theorem run_transaction (d : Display) (cs : List Call)
    (hs : Call.updateStart ∉ cs) (he : Call.updateSubmitSync ∉ cs) :
    d.run ([Call.updateStart] ++ cs ++ [Call.updateSubmitSync]) =
      ⟨applyMoves d.pos (queued cs), none⟩ := by
  rw [run_append, run_append]
  have h1 : d.run [Call.updateStart] = ⟨d.pos, some []⟩ := rfl
  rw [h1, run_queue cs d.pos [] hs he]
  simp [Display.run, Display.exec]

/-! ## The key switch -/

theorem handleKey_digit (cfg : Config) (s : Ctl) (d : Nat) (hd : d ≤ 9) :
    handleKey cfg s (digitKey d) =
      if d < cfg.images then
        ([Call.updateStart, parkAt s.activeImage, showAt cfg d, Call.updateSubmitSync],
          { s with activeImage := d })
      else ([], s) := by
  have h1 : tolower (digitKey d) = 48 + (d : Int) := by
    unfold tolower digitKey
    rw [if_neg (by omega)]
  have h2 : (48 + (d : Int) - 48).toNat = d := by omega
  have h3 : d % 65536 = d := by omega
  have h4 : (48 : Int) ≤ 48 + (d : Int) ∧ 48 + (d : Int) ≤ 57 := by omega
  simp only [handleKey, h1, h2, h3, h4, and_self, if_true]

theorem handleKey_showAll (cfg : Config) (s : Ctl) :
    handleKey cfg s 118 =
      ([Call.updateStart] ++ (List.range cfg.images).map (showAt cfg) ++
        [Call.updateSubmitSync], s) := by
  simp [handleKey, tolower]

theorem handleKey_hideAll (cfg : Config) (s : Ctl) :
    handleKey cfg s 105 =
      ([Call.updateStart] ++ (List.range cfg.images).map parkAt ++
        [Call.updateSubmitSync], s) := by
  simp [handleKey, tolower]

theorem pressKey_digit_pos (cfg : Config) (s : State) (d : Nat) (hd : d ≤ 9)
    (hn : d < cfg.images) :
    (pressKey cfg s (digitKey d)).display.pos =
      Function.update (Function.update s.display.pos s.ctl.activeImage (some offscreen))
        d (some (cfg.home d)) := by
  unfold pressKey
  rw [handleKey_digit cfg s.ctl d hd, if_pos hn]
  have h := run_transaction s.display [parkAt s.ctl.activeImage, showAt cfg d]
    (by simp [parkAt, showAt]) (by simp [parkAt, showAt])
  simp only [List.singleton_append, List.cons_append, List.nil_append] at h
  rw [h]
  simp [queued, parkAt, showAt, applyMoves, offscreen, Config.home]

theorem queued_map_showAt (cfg : Config) (l : List Nat) :
    queued (l.map (showAt cfg)) = l.map (fun i => (i, cfg.home i)) := by
  induction l with
  | nil => rfl
  | cons a l ih => simp [queued, showAt, Config.home, ih]

theorem queued_map_parkAt (l : List Nat) :
    queued (l.map parkAt) = l.map (fun i => (i, offscreen)) := by
  induction l with
  | nil => rfl
  | cons a l ih => simp [queued, parkAt, offscreen, ih]

/-- Queueing one position for each index below `n` and submitting: every
index below `n` gets its position, every other index keeps its own. -/
theorem applyMoves_range (p : Nat → Option Pos) (f : Nat → Pos) (n j : Nat) :
    applyMoves p ((List.range n).map (fun i => (i, f i))) j =
      if j < n then some (f j) else p j := by
  have hnd : (((List.range n).map (fun i => (i, f i))).map Prod.fst).Nodup := by
    simp only [List.map_map]
    have : (Prod.fst ∘ fun i => (i, f i)) = (id : Nat → Nat) := rfl
    rw [this, List.map_id]
    exact List.nodup_range n
  by_cases h : j < n
  · rw [if_pos h]
    apply applyMoves_of_mem _ _ _ _ hnd
    exact List.mem_map.2 ⟨j, List.mem_range.2 h, rfl⟩
  · rw [if_neg h]
    apply applyMoves_of_not_mem
    simp only [List.map_map]
    have : (Prod.fst ∘ fun i => (i, f i)) = (id : Nat → Nat) := rfl
    rw [this, List.map_id]
    simpa using h

theorem pressKey_showAll (cfg : Config) (s : State) :
    pressKey cfg s 118 =
      ⟨s.ctl, ⟨fun j => if j < cfg.images then some (cfg.home j) else s.display.pos j, none⟩⟩ := by
  unfold pressKey
  rw [handleKey_showAll, run_transaction _ _ (by simp [showAt]) (by simp [showAt]),
    queued_map_showAt]
  congr 2
  funext j
  exact applyMoves_range _ _ _ _

theorem pressKey_hideAll (cfg : Config) (s : State) :
    pressKey cfg s 105 =
      ⟨s.ctl, ⟨fun j => if j < cfg.images then some offscreen else s.display.pos j, none⟩⟩ := by
  unfold pressKey
  rw [handleKey_hideAll, run_transaction _ _ (by simp [parkAt]) (by simp [parkAt]),
    queued_map_parkAt]
  congr 2
  funext j
  exact applyMoves_range _ _ _ _

/-! ## Digit keys -/

/-- C1: for a digit key `d` (`'0'`..`'9'`) pressed in any controller state
with active index `a`: if `d < images` the handler issues exactly one
transaction that first moves image `a` to `(10000, 0)` and then moves image
`d` to `(xPos[d], yPos[d])`; after it image `d` is at its home position, image
`a` (when different from `d`) is at `(10000, 0)`, every other image is where
it was, and the active index is `d`.  If `d >= images` the handler makes no
call and the whole state is unchanged. -/
theorem digit_key_switch (cfg : Config) (s : State) (d : Nat) (hd : d ≤ 9) :
    (d < cfg.images →
      handleKey cfg s.ctl (digitKey d) =
        ([Call.updateStart, Call.moveImageLayer s.ctl.activeImage 10000 0,
          Call.moveImageLayer d (cfg.xPos.getD d 0) (cfg.yPos.getD d 0),
          Call.updateSubmitSync],
          { s.ctl with activeImage := d }) ∧
      (pressKey cfg s (digitKey d)).display.pos d =
        some (cfg.xPos.getD d 0, cfg.yPos.getD d 0) ∧
      (s.ctl.activeImage ≠ d →
        (pressKey cfg s (digitKey d)).display.pos s.ctl.activeImage = some (10000, 0)) ∧
      (∀ j, j ≠ s.ctl.activeImage → j ≠ d →
        (pressKey cfg s (digitKey d)).display.pos j = s.display.pos j) ∧
      (pressKey cfg s (digitKey d)).ctl.activeImage = d) ∧
    (cfg.images ≤ d →
      handleKey cfg s.ctl (digitKey d) = ([], s.ctl) ∧ pressKey cfg s (digitKey d) = s) := by
  constructor
  · intro hn
    have hk := handleKey_digit cfg s.ctl d hd
    rw [if_pos hn] at hk
    have hp := pressKey_digit_pos cfg s d hd hn
    refine ⟨hk, ?_, ?_, ?_, ?_⟩
    · rw [hp]; simp [Config.home]
    · intro hne
      rw [hp, Function.update_noteq hne]
      simp [offscreen, XOFFSCREEN]
    · intro j hja hjd
      rw [hp, Function.update_noteq hjd, Function.update_noteq hja]
    · simp [pressKey, hk]
  · intro hn
    have hk := handleKey_digit cfg s.ctl d hd
    rw [if_neg (by omega)] at hk
    refine ⟨hk, ?_⟩
    simp [pressKey, hk, run_nil]

/-- C1, on the sample (`-x 0 -y 0`, two images): pressing `'1'` in the state
in which the loop is entered puts image 0 at `(10000, 0)`, image 1 at `(0, 0)`
and makes 1 the active index. -/
theorem digit_key_switch_witness :
    (1 : Nat) ≤ 9 ∧ 1 < sampleConfig.images ∧
      (pressKey sampleConfig sampleState (digitKey 1)).display.pos 0 = some (10000, 0) ∧
      (pressKey sampleConfig sampleState (digitKey 1)).display.pos 1 = some (0, 0) ∧
      (pressKey sampleConfig sampleState (digitKey 1)).ctl.activeImage = 1 := by
  have h1 : 1 < sampleConfig.images := by decide
  obtain ⟨_, hd, ha, _, hact⟩ :=
    (digit_key_switch sampleConfig sampleState 1 (by decide)).1 h1
  exact ⟨by decide, h1, ha (by decide), hd, hact⟩

/-- The positions after digit `i` and then digit `a`, from a state whose
active index is `a`: four queued moves in two transactions. -/
theorem pressKey_digit_twice_pos (cfg : Config) (s : State) (i : Nat)
    (hi : i ≤ 9) (ha : s.ctl.activeImage ≤ 9)
    (hin : i < cfg.images) (han : s.ctl.activeImage < cfg.images) :
    (pressKey cfg (pressKey cfg s (digitKey i)) (digitKey s.ctl.activeImage)).display.pos =
      Function.update
        (Function.update
          (Function.update (Function.update s.display.pos s.ctl.activeImage (some offscreen))
            i (some (cfg.home i)))
          i (some offscreen))
        s.ctl.activeImage (some (cfg.home s.ctl.activeImage)) ∧
    (pressKey cfg (pressKey cfg s (digitKey i)) (digitKey s.ctl.activeImage)).ctl = s.ctl := by
  have hk1 := handleKey_digit cfg s.ctl i hi
  rw [if_pos hin] at hk1
  have hc1 : (pressKey cfg s (digitKey i)).ctl = { s.ctl with activeImage := i } := by
    simp [pressKey, hk1]
  have hp1 := pressKey_digit_pos cfg s i hi hin
  have hk2 := handleKey_digit cfg (pressKey cfg s (digitKey i)).ctl s.ctl.activeImage ha
  rw [if_pos han] at hk2
  have hp2 := pressKey_digit_pos cfg (pressKey cfg s (digitKey i)) s.ctl.activeImage ha han
  rw [hp1, hc1] at hp2
  refine ⟨hp2, ?_⟩
  have : (pressKey cfg (pressKey cfg s (digitKey i)) (digitKey s.ctl.activeImage)).ctl =
      { (pressKey cfg s (digitKey i)).ctl with activeImage := s.ctl.activeImage } := by
    rw [pressKey, hk2]
  rw [this, hc1]

/-- C4, as stated, fails in two ways.  On the sample both images are placed
at `(0, 0)` when the loop is entered and image 0 is active.  After `'1'` then
`'0'` image 1 is at `(10000, 0)`, so the positions are not those before the
two keys.  And for `i = a`: after `'0'` then `'0'` image 0 is at its home
`(0, 0)`, not parked at `(10000, 0)`. -/
theorem switch_roundtrip_counterexample :
    sampleState.ctl.activeImage = 0 ∧ 1 < sampleConfig.images ∧
      sampleState.display.pos 1 = some (0, 0) ∧
      (pressKey sampleConfig (pressKey sampleConfig sampleState (digitKey 1))
        (digitKey 0)).display.pos 1 = some (10000, 0) ∧
      (pressKey sampleConfig (pressKey sampleConfig sampleState (digitKey 1))
        (digitKey 0)).display.pos ≠ sampleState.display.pos ∧
      (pressKey sampleConfig (pressKey sampleConfig sampleState (digitKey 0))
        (digitKey 0)).display.pos 0 ≠ some (10000, 0) := by
  refine ⟨by decide, by decide, by decide, by decide, ?_, by decide⟩
  intro h
  have h1 := congrFun h 1
  revert h1
  decide

/-- C4, amended: from every controller state with active image `a` and for
every valid index `i` (both below the number of loaded images and nameable by
a digit key), pressing digit `i` and then digit `a` leaves image `a` at its
home position, parks image `i` at `(10000, 0)` when `i` differs from `a`,
leaves every other image where it was, and leaves the controller variables
(the active index among them) as before.  The positions after the two keys
are those before them exactly when, before, image `a` was at its home
position and image `i` (when different from `a`) was parked at `(10000, 0)`. -/
theorem switch_roundtrip (cfg : Config) (s : State) (i : Nat)
    (hi : i ≤ 9) (ha : s.ctl.activeImage ≤ 9)
    (hin : i < cfg.images) (han : s.ctl.activeImage < cfg.images) :
    (pressKey cfg (pressKey cfg s (digitKey i)) (digitKey s.ctl.activeImage)).display.pos
        s.ctl.activeImage =
      some (cfg.xPos.getD s.ctl.activeImage 0, cfg.yPos.getD s.ctl.activeImage 0) ∧
    (i ≠ s.ctl.activeImage →
      (pressKey cfg (pressKey cfg s (digitKey i)) (digitKey s.ctl.activeImage)).display.pos i =
        some (10000, 0)) ∧
    (∀ j, j ≠ s.ctl.activeImage → j ≠ i →
      (pressKey cfg (pressKey cfg s (digitKey i)) (digitKey s.ctl.activeImage)).display.pos j =
        s.display.pos j) ∧
    (pressKey cfg (pressKey cfg s (digitKey i)) (digitKey s.ctl.activeImage)).ctl = s.ctl ∧
    ((pressKey cfg (pressKey cfg s (digitKey i)) (digitKey s.ctl.activeImage)).display.pos =
        s.display.pos ↔
      (s.display.pos s.ctl.activeImage =
          some (cfg.xPos.getD s.ctl.activeImage 0, cfg.yPos.getD s.ctl.activeImage 0) ∧
        (i ≠ s.ctl.activeImage → s.display.pos i = some (10000, 0)))) := by
  obtain ⟨hp, hc⟩ := pressKey_digit_twice_pos cfg s i hi ha hin han
  have h1 : (pressKey cfg (pressKey cfg s (digitKey i))
      (digitKey s.ctl.activeImage)).display.pos s.ctl.activeImage =
      some (cfg.xPos.getD s.ctl.activeImage 0, cfg.yPos.getD s.ctl.activeImage 0) := by
    rw [hp]
    simp [Config.home]
  have h2 : i ≠ s.ctl.activeImage →
      (pressKey cfg (pressKey cfg s (digitKey i)) (digitKey s.ctl.activeImage)).display.pos i =
        some (10000, 0) := by
    intro hne
    rw [hp, Function.update_noteq hne]
    simp [offscreen, XOFFSCREEN]
  have h3 : ∀ j, j ≠ s.ctl.activeImage → j ≠ i →
      (pressKey cfg (pressKey cfg s (digitKey i)) (digitKey s.ctl.activeImage)).display.pos j =
        s.display.pos j := by
    intro j hja hji
    rw [hp, Function.update_noteq hja, Function.update_noteq hji, Function.update_noteq hji,
      Function.update_noteq hja]
  refine ⟨h1, h2, h3, hc, ?_⟩
  constructor
  · intro heq
    refine ⟨?_, ?_⟩
    · rw [← heq]; exact h1
    · intro hne
      rw [← heq]; exact h2 hne
  · rintro ⟨hhome, hpark⟩
    funext j
    by_cases hja : j = s.ctl.activeImage
    · rw [hja, h1, hhome]
    · by_cases hji : j = i
      · rw [hji, h2 (by rw [← hji]; exact hja), hpark (by rw [← hji]; exact hja)]
      · exact h3 j hja hji

/-- C4, amended, on the sample.  From the state in which the loop is entered
(image 0 active, both images shown), `'1'` then `'0'` leaves image 0 at its
home `(0, 0)` and image 1 parked at `(10000, 0)`, with image 0 active again.
From the state after `'1'` (image 1 active and at home, image 0 parked),
`'0'` then `'1'` gives back exactly the positions before. -/
theorem switch_roundtrip_witness :
    (pressKey sampleConfig (pressKey sampleConfig sampleState (digitKey 1))
        (digitKey 0)).display.pos 0 = some (0, 0) ∧
    (pressKey sampleConfig (pressKey sampleConfig sampleState (digitKey 1))
        (digitKey 0)).display.pos 1 = some (10000, 0) ∧
    (pressKey sampleConfig (pressKey sampleConfig sampleState (digitKey 1))
        (digitKey 0)).ctl = sampleState.ctl ∧
    (pressKey sampleConfig
        (pressKey sampleConfig (pressKey sampleConfig sampleState (digitKey 1)) (digitKey 0))
        (digitKey 1)).display.pos =
      (pressKey sampleConfig sampleState (digitKey 1)).display.pos :=
  ⟨(switch_roundtrip sampleConfig sampleState 1
      (by decide) (by decide) (by decide) (by decide)).1,
    (switch_roundtrip sampleConfig sampleState 1
      (by decide) (by decide) (by decide) (by decide)).2.1 (by decide),
    (switch_roundtrip sampleConfig sampleState 1
      (by decide) (by decide) (by decide) (by decide)).2.2.2.1,
    (switch_roundtrip sampleConfig (pressKey sampleConfig sampleState (digitKey 1)) 0
      (by decide) (by decide) (by decide) (by decide)).2.2.2.2.2
      ⟨by decide, fun _ => by decide⟩⟩

/-! ## Show all, hide all -/

/-- C5: from any state, `'v'` leaves every image `j < images` at
`(xPos[j], yPos[j])` and `'i'` leaves every image at `(10000, 0)`; neither
changes the active index, the running flag or the clock.  Hence `'v'` twice
gives the positions of `'v'` once, `'i'` then `'v'` puts every image at its
home position, and `'i'` twice gives the state of `'i'` once. -/
theorem show_all_hide_all (cfg : Config) (s : State) :
    (∀ j, j < cfg.images →
      (pressKey cfg s 118).display.pos j = some (cfg.xPos.getD j 0, cfg.yPos.getD j 0)) ∧
    (∀ j, j < cfg.images → (pressKey cfg s 105).display.pos j = some (10000, 0)) ∧
    (pressKey cfg s 118).ctl = s.ctl ∧
    (pressKey cfg s 105).ctl = s.ctl ∧
    (pressKey cfg (pressKey cfg s 118) 118).display.pos = (pressKey cfg s 118).display.pos ∧
    (∀ j, j < cfg.images →
      (pressKey cfg (pressKey cfg s 105) 118).display.pos j =
        some (cfg.xPos.getD j 0, cfg.yPos.getD j 0)) ∧
    pressKey cfg (pressKey cfg s 105) 105 = pressKey cfg s 105 := by
  refine ⟨?_, ?_, ?_, ?_, ?_, ?_, ?_⟩
  · intro j hj
    rw [pressKey_showAll]
    simp [hj, Config.home]
  · intro j hj
    rw [pressKey_hideAll]
    simp [hj, offscreen, XOFFSCREEN]
  · rw [pressKey_showAll]
  · rw [pressKey_hideAll]
  · rw [pressKey_showAll, pressKey_showAll]
    funext j
    by_cases hj : j < cfg.images <;> simp [hj]
  · intro j hj
    rw [pressKey_showAll]
    simp [hj, Config.home]
  · rw [pressKey_hideAll, pressKey_hideAll]
    congr 2
    funext j
    by_cases hj : j < cfg.images <;> simp [hj]

/-- C5 on the sample, after `'1'` has parked image 0: `'v'` brings image 0
back to `(0, 0)`, `'i'` parks image 1 at `(10000, 0)`, and the active index
stays 1. -/
theorem show_all_hide_all_witness :
    (pressKey sampleConfig (pressKey sampleConfig sampleState (digitKey 1)) 118).display.pos 0 =
        some (0, 0) ∧
      (pressKey sampleConfig (pressKey sampleConfig sampleState (digitKey 1)) 105).display.pos 1 =
        some (10000, 0) ∧
      (pressKey sampleConfig (pressKey sampleConfig sampleState (digitKey 1)) 118).ctl.activeImage
        = 1 :=
  ⟨(show_all_hide_all sampleConfig (pressKey sampleConfig sampleState (digitKey 1))).1 0
      (by decide),
    (show_all_hide_all sampleConfig (pressKey sampleConfig sampleState (digitKey 1))).2.1 1
      (by decide),
    by decide⟩

/-! ## Other keys -/

/-- C8, as stated, fails: `tolower` maps the upper-case letters onto the
bound keys.  On the sample, `'I'` (73) issues a transaction that moves image 0
from `(0, 0)` to `(10000, 0)`, and `'C'` (67) clears the running flag. -/
theorem unbound_key_counterexample :
    (handleKey sampleConfig sampleState.ctl 73).1 ≠ [] ∧
      sampleState.display.pos 0 = some (0, 0) ∧
      (pressKey sampleConfig sampleState 73).display.pos 0 = some (10000, 0) ∧
      sampleState.ctl.run = true ∧
      (pressKey sampleConfig sampleState 67).ctl.run = false := by
  decide

/-- C8, amended: a key that is not a digit `'0'`..`'9'`, not `'v'`, `'i'`, `'c'`,
not one of their upper-case forms `'V'`, `'I'`, `'C'`, and not ESC (27) makes
the handler issue no call and leaves the controller variables and the display
unchanged. -/
theorem unbound_key_ignored (cfg : Config) (s : State) (key : Int)
    (hdigit : ¬ (48 ≤ key ∧ key ≤ 57))
    (hlower : key ≠ 118 ∧ key ≠ 105 ∧ key ≠ 99 ∧ key ≠ 27)
    (hupper : key ≠ 86 ∧ key ≠ 73 ∧ key ≠ 67) :
    handleKey cfg s.ctl key = ([], s.ctl) ∧ pressKey cfg s key = s := by
  have hk : handleKey cfg s.ctl key = ([], s.ctl) := by
    unfold handleKey tolower
    by_cases hu : 65 ≤ key ∧ key ≤ 90
    · rw [if_pos hu]
      simp only
      rw [if_neg (by omega), if_neg (by omega), if_neg (by omega), if_neg (by omega)]
    · rw [if_neg hu]
      simp only
      rw [if_neg hdigit, if_neg (by omega), if_neg (by omega), if_neg (by omega)]
  refine ⟨hk, ?_⟩
  simp [pressKey, hk, run_nil]

/-- C8, amended, at the key `'x'` (120) on the sample. -/
theorem unbound_key_ignored_witness :
    handleKey sampleConfig sampleState.ctl 120 = ([], sampleState.ctl) ∧
      pressKey sampleConfig sampleState 120 = sampleState :=
  unbound_key_ignored sampleConfig sampleState 120 (by decide) (by decide) (by decide)

/-! ## The placement loop -/

theorem toInt32_of_range (v : Int) (h1 : -2147483648 ≤ v) (h2 : v < 2147483648) :
    toInt32 v = v := by
  unfold toInt32
  omega

theorem placeImages_xPos (o : Options) (info : MODEINFO_T) (imgs : List IMAGE_T)
    (i : Nat) (layer : Int) :
    (placeImages o info imgs i layer).xPos = imgs.map (homeX o info) := by
  induction imgs generalizing i layer with
  | nil => rfl
  | cons im rest ih => simp [placeImages, ih]

theorem placeImages_yPos (o : Options) (info : MODEINFO_T) (imgs : List IMAGE_T)
    (i : Nat) (layer : Int) :
    (placeImages o info imgs i layer).yPos = imgs.map (homeY o info) := by
  induction imgs generalizing i layer with
  | nil => rfl
  | cons im rest ih => simp [placeImages, ih]

/-- C2: for every loaded image `i`, whatever the other images are: without
`-x`, `xPos[i]` is `(info.width - width_i) / 2` with C's truncating division
(the subtraction being representable in `int32_t`, as it is for any two
non-negative dimensions), and with `-x` it is the given offset; the same for
`yPos[i]` with the heights and `-y`. -/
theorem centering_law (o : Options) (info : MODEINFO_T) (imgs : List IMAGE_T) (i : Nat)
    (hi : i < imgs.length) :
    (o.xOffsetSet = false →
      -2147483648 ≤ info.width - imgs[i].width → info.width - imgs[i].width < 2147483648 →
      (mainConfig o info imgs).xPos[i]? = some (Int.tdiv (info.width - imgs[i].width) 2)) ∧
    (o.yOffsetSet = false →
      -2147483648 ≤ info.height - imgs[i].height → info.height - imgs[i].height < 2147483648 →
      (mainConfig o info imgs).yPos[i]? = some (Int.tdiv (info.height - imgs[i].height) 2)) ∧
    (o.xOffsetSet = true → (mainConfig o info imgs).xPos[i]? = some o.xOffset) ∧
    (o.yOffsetSet = true → (mainConfig o info imgs).yPos[i]? = some o.yOffset) := by
  simp only [mainConfig, placeImages_xPos, placeImages_yPos, List.getElem?_map,
    List.getElem?_eq_getElem hi, Option.map_some']
  refine ⟨?_, ?_, ?_, ?_⟩
  · intro hx h1 h2
    simp [homeX, hx, toInt32_of_range _ h1 h2]
  · intro hy h1 h2
    simp [homeY, hy, toInt32_of_range _ h1 h2]
  · intro hx
    simp [homeX, hx]
  · intro hy
    simp [homeY, hy]

/-- C2 on an 800 by 600 display: the second sample image (200 by 300) is
centred at `(300, 150)`; with `-x 0 -y 0` it is at `(0, 0)`. -/
theorem centering_law_witness :
    (mainConfig {} sampleInfo sampleImages).xPos[1]? = some 300 ∧
      (mainConfig {} sampleInfo sampleImages).yPos[1]? = some 150 ∧
      (mainConfig sampleOptions sampleInfo sampleImages).xPos[1]? = some 0 ∧
      (mainConfig sampleOptions sampleInfo sampleImages).yPos[1]? = some 0 :=
  ⟨(centering_law {} sampleInfo sampleImages 1 (by decide)).1 rfl (by decide) (by decide),
    (centering_law {} sampleInfo sampleImages 1 (by decide)).2.1 rfl (by decide) (by decide),
    (centering_law sampleOptions sampleInfo sampleImages 1 (by decide)).2.2.1 rfl,
    (centering_law sampleOptions sampleInfo sampleImages 1 (by decide)).2.2.2 rfl⟩

/-! ## Initial placement -/

theorem placeImages_no_start (o : Options) (info : MODEINFO_T) (imgs : List IMAGE_T)
    (i : Nat) (layer : Int) : Call.updateStart ∉ (placeImages o info imgs i layer).calls := by
  induction imgs generalizing i layer with
  | nil => simp [placeImages]
  | cons im rest ih => simp [placeImages, ih]

theorem placeImages_no_submit (o : Options) (info : MODEINFO_T) (imgs : List IMAGE_T)
    (i : Nat) (layer : Int) :
    Call.updateSubmitSync ∉ (placeImages o info imgs i layer).calls := by
  induction imgs generalizing i layer with
  | nil => simp [placeImages]
  | cons im rest ih => simp [placeImages, ih]

theorem queued_placeImages (o : Options) (info : MODEINFO_T) (imgs : List IMAGE_T)
    (i : Nat) (layer : Int) :
    queued (placeImages o info imgs i layer).calls =
      (imgs.enumFrom i).map (fun e => (e.1, initPos o info e.2)) := by
  induction imgs generalizing i layer with
  | nil => rfl
  | cons im rest ih => simp [placeImages, queued, initPos, ih]

/-- The display when the run loop is entered: one transaction that queued
the initial position of every image. -/
theorem mainState_display (o : Options) (info : MODEINFO_T) (imgs : List IMAGE_T) :
    (mainState o info imgs).display =
      ⟨applyMoves (fun _ => none)
        ((imgs.enumFrom 0).map (fun e => (e.1, initPos o info e.2))), none⟩ := by
  have hshape : startupCalls o info imgs =
      (if o.background > 0 then
          [Call.initBackgroundLayer o.background (toInt32 (o.layer - 1))] else []) ++
        ([Call.updateStart] ++
          ((if o.background > 0 then [Call.addElementBackgroundLayer] else []) ++
            (placeImages o info imgs 0 o.layer).calls) ++ [Call.updateSubmitSync]) := by
    simp [startupCalls]
  have hinit : Display.empty.run
      (if o.background > 0 then
        [Call.initBackgroundLayer o.background (toInt32 (o.layer - 1))] else []) =
      Display.empty := by
    split <;> rfl
  have hs : Call.updateStart ∉
      (if o.background > 0 then [Call.addElementBackgroundLayer] else []) ++
        (placeImages o info imgs 0 o.layer).calls := by
    have := placeImages_no_start o info imgs 0 o.layer
    split <;> simp [this]
  have he : Call.updateSubmitSync ∉
      (if o.background > 0 then [Call.addElementBackgroundLayer] else []) ++
        (placeImages o info imgs 0 o.layer).calls := by
    have := placeImages_no_submit o info imgs 0 o.layer
    split <;> simp [this]
  have hq : queued ((if o.background > 0 then [Call.addElementBackgroundLayer] else []) ++
      (placeImages o info imgs 0 o.layer).calls) =
      (imgs.enumFrom 0).map (fun e => (e.1, initPos o info e.2)) := by
    rw [← queued_placeImages o info imgs 0 o.layer]
    split <;> simp [queued]
  unfold mainState
  rw [hshape, run_append, hinit, run_transaction _ _ hs he, hq]
  rfl

theorem mainState_pos (o : Options) (info : MODEINFO_T) (imgs : List IMAGE_T) (i : Nat)
    (hi : i < imgs.length) :
    (mainState o info imgs).display.pos i = some (initPos o info imgs[i]) := by
  rw [mainState_display]
  apply applyMoves_of_mem
  · rw [List.map_map]
    have : (Prod.fst ∘ fun e : Nat × IMAGE_T => (e.1, initPos o info e.2)) = Prod.fst := rfl
    rw [this, List.enumFrom_map_fst]
    exact List.nodup_range' 0 imgs.length
  · refine List.mem_map.2 ⟨(i, imgs[i]), ?_, rfl⟩
    have := (List.mk_add_mem_enumFrom_iff_getElem? (n := 0) (i := i) (x := imgs[i])
      (l := imgs)).2 (List.getElem?_eq_getElem hi)
    simpa using this

/-- C9, as stated, fails: with `-i` (start invisible) and no `-y`, the second
sample image (height 300 on a display of height 600) is first placed at
`(10000, 150)`, not at `(10000, 0)` where hide-all puts it. -/
theorem initial_placement_counterexample :
    (mainState { startInvisible := true } sampleInfo sampleImages).display.pos 1 =
        some (10000, 150) ∧
      (mainState { startInvisible := true } sampleInfo sampleImages).display.pos 1 ≠
        some (10000, 0) ∧
      (pressKey (mainConfig { startInvisible := true } sampleInfo sampleImages)
        (mainState { startInvisible := true } sampleInfo sampleImages) 105).display.pos 1 =
        some (10000, 0) := by
  decide

/-- C9, amended: every loaded image `i` is first placed at `(10000, yPos[i])`
when start-invisible was requested (x at the offscreen sentinel, y its home
y), and at its home position `(xPos[i], yPos[i])` otherwise. -/
theorem initial_placement (o : Options) (info : MODEINFO_T) (imgs : List IMAGE_T) (i : Nat)
    (hi : i < imgs.length) :
    (o.startInvisible = true →
      (mainState o info imgs).display.pos i =
        some (10000, (mainConfig o info imgs).yPos.getD i 0)) ∧
    (o.startInvisible = false →
      (mainState o info imgs).display.pos i =
        some ((mainConfig o info imgs).xPos.getD i 0, (mainConfig o info imgs).yPos.getD i 0)) := by
  have hx : (mainConfig o info imgs).xPos.getD i 0 = homeX o info imgs[i] := by
    simp [mainConfig, placeImages_xPos, List.getD_eq_getElem?_getD, List.getElem?_eq_getElem hi]
  have hy : (mainConfig o info imgs).yPos.getD i 0 = homeY o info imgs[i] := by
    simp [mainConfig, placeImages_yPos, List.getD_eq_getElem?_getD, List.getElem?_eq_getElem hi]
  rw [mainState_pos o info imgs i hi, hx, hy]
  constructor
  · intro h
    simp [initPos, h, XOFFSCREEN]
  · intro h
    simp [initPos, h]

/-- C9, amended, on the sample images: started invisible, image 1 is at
`(10000, 150)`; started visible, at its centred home `(300, 150)`. -/
theorem initial_placement_witness :
    (mainState { startInvisible := true } sampleInfo sampleImages).display.pos 1 =
        some (10000, 150) ∧
      (mainState {} sampleInfo sampleImages).display.pos 1 = some (300, 150) :=
  ⟨(initial_placement { startInvisible := true } sampleInfo sampleImages 1 (by decide)).1 rfl,
    (initial_placement {} sampleInfo sampleImages 1 (by decide)).2 rfl⟩

/-! ## Z-orders -/

theorem zOrders_append (a b : List Call) : zOrders (a ++ b) = zOrders a ++ zOrders b := by
  induction a with
  | nil => rfl
  | cons c a ih => cases c <;> simp [zOrders, ih]

theorem zOrders_take_sublist (cs : List Call) (k : Nat) :
    (zOrders (cs.take k)).Sublist (zOrders cs) := by
  induction cs generalizing k with
  | nil => simp [zOrders]
  | cons c cs ih =>
    cases k with
    | zero => simp [zOrders]
    | succ k =>
      cases c <;> simp [zOrders, ih k]

theorem imageZ_append_submit (cs : List Call) (j : Nat) :
    imageZ (cs ++ [Call.updateSubmitSync]) j = imageZ cs j := by
  induction cs with
  | nil => rfl
  | cons c cs ih => cases c <;> simp [imageZ, ih]

theorem toInt32_add_toInt32 (a b : Int) : toInt32 (toInt32 a + b) = toInt32 (a + b) := by
  unfold toInt32
  omega

theorem toInt32_range (v : Int) : -2147483648 ≤ toInt32 v ∧ toInt32 v < 2147483648 := by
  unfold toInt32
  omega

/-- The placement loop hands out `layer, layer + 1, ...` in load order, each
reduced to the `int32_t` range. -/
theorem zOrders_placeImages (o : Options) (info : MODEINFO_T) (imgs : List IMAGE_T)
    (i : Nat) (layer : Int) (hlo : -2147483648 ≤ layer) (hup : layer < 2147483648) :
    zOrders (placeImages o info imgs i layer).calls =
      (List.range imgs.length).map (fun k : Nat => toInt32 (layer + (k : Int))) := by
  induction imgs generalizing i layer with
  | nil => rfl
  | cons im rest ih =>
    have hr := toInt32_range (layer + 1)
    simp only [placeImages, zOrders, List.length_cons]
    rw [ih (i + 1) (toInt32 (layer + 1)) hr.1 hr.2, List.range_succ_eq_map]
    simp only [List.map_cons, List.map_map, Nat.cast_zero, add_zero, List.cons.injEq]
    refine ⟨(toInt32_of_range layer hlo hup).symm, ?_⟩
    apply List.map_congr_left
    intro k _
    show toInt32 (toInt32 (layer + 1) + (k : Int)) = toInt32 (layer + ((k + 1 : Nat) : Int))
    rw [toInt32_add_toInt32]
    congr 1
    omega

theorem imageZ_placeImages (o : Options) (info : MODEINFO_T) (imgs : List IMAGE_T)
    (i : Nat) (layer : Int) (hlo : -2147483648 ≤ layer) (hup : layer < 2147483648)
    (k : Nat) (hk : k < imgs.length) :
    imageZ (placeImages o info imgs i layer).calls (i + k) =
      some (toInt32 (layer + (k : Int))) := by
  induction imgs generalizing i layer k with
  | nil => simp at hk
  | cons im rest ih =>
    have hr := toInt32_range (layer + 1)
    simp only [placeImages, imageZ]
    cases k with
    | zero => simp [toInt32_of_range layer hlo hup]
    | succ k =>
      simp only [List.length_cons, Nat.add_lt_add_iff_right] at hk
      rw [if_neg (by omega)]
      have := ih (i + 1) (toInt32 (layer + 1)) hr.1 hr.2 k hk
      rw [show i + (k + 1) = i + 1 + k by omega, this, toInt32_add_toInt32]
      congr 2
      simp only [Nat.cast_add, Nat.cast_one]
      omega

/-- The z-orders of the whole startup, for any `int32_t` starting layer. -/
theorem zOrders_startupCalls (o : Options) (info : MODEINFO_T) (imgs : List IMAGE_T)
    (hlo : -2147483648 ≤ o.layer) (hup : o.layer < 2147483648) :
    zOrders (startupCalls o info imgs) =
      (if o.background > 0 then [toInt32 (o.layer - 1)] else []) ++
        (List.range imgs.length).map (fun i : Nat => toInt32 (o.layer + (i : Int))) := by
  unfold startupCalls
  rw [zOrders_append, zOrders_append, zOrders_append, zOrders_append,
    zOrders_placeImages o info imgs 0 o.layer hlo hup]
  by_cases hb : o.background > 0 <;> simp [hb, zOrders]

/-- With at most sixteen images the z-orders of the startup are pairwise
different, whatever the starting layer: at most seventeen consecutive
integers stay different after reduction modulo `2^32`. -/
theorem zOrders_startupCalls_nodup (o : Options) (info : MODEINFO_T) (imgs : List IMAGE_T)
    (hlo : -2147483648 ≤ o.layer) (hup : o.layer < 2147483648) (hn : imgs.length ≤ 16) :
    (zOrders (startupCalls o info imgs)).Nodup := by
  rw [zOrders_startupCalls o info imgs hlo hup]
  have hr : ((List.range imgs.length).map
      (fun i : Nat => toInt32 (o.layer + (i : Int)))).Nodup := by
    apply List.Nodup.map_on _ (List.nodup_range _)
    intro a ha b hb hab
    have ha2 := List.mem_range.1 ha
    have hb2 := List.mem_range.1 hb
    unfold toInt32 at hab
    omega
  split
  · simp only [List.singleton_append, List.nodup_cons]
    refine ⟨?_, hr⟩
    intro hmem
    obtain ⟨k, hk, hkz⟩ := List.mem_map.1 hmem
    have hk2 := List.mem_range.1 hk
    have hkz2 : toInt32 (o.layer + (k : Int)) = toInt32 (o.layer - 1) := hkz
    unfold toInt32 at hkz2
    omega
  · simpa using hr

/-- C6, as stated, fails at both ends of the `int32_t` range (arithmetic
modelled as two's-complement wrap).  With `-l 2147483647` and two images,
`layer++` after the first image leaves the range: the second image is not
created with z-order `L + 1`, which is no `int32_t` value, and the z-orders
handed out (background, image 0, image 1) are not increasing.  With
`-l -2147483648` and a background, `layer - 1` leaves the range: the
background is not created with `L - 1` and ends above the images. -/
theorem z_order_counterexample :
    zOrders (startupCalls { layer := 2147483647 } sampleInfo sampleImages) =
        [2147483646, 2147483647, -2147483648] ∧
      imageZ (startupCalls { layer := 2147483647 } sampleInfo sampleImages) 1 ≠
        some (2147483647 + 1) ∧
      ¬ (zOrders (startupCalls { layer := 2147483647 } sampleInfo sampleImages)).Pairwise
        (fun a b => a < b) ∧
      zOrders (startupCalls { layer := -2147483648 } sampleInfo sampleImages) =
        [2147483647, -2147483648, -2147483647] ∧
      backgroundZ (startupCalls { layer := -2147483648 } sampleInfo sampleImages) ≠
        some (-2147483648 - 1) := by
  decide

/-- C6, amended: for every `int32_t` starting layer number `L` and at most
sixteen loaded images, after every call no two created layers share a
z-order.  When moreover the z-orders used stay in the `int32_t` range
(`L - 1` for a background that is present, `L + n - 1` for the last of the `n`
images), image `i` in load order is created with z-order `L + i` and the
background layer, when present, with `L - 1`, and the z-orders in creation
order are strictly increasing, so every image is above the previous one and
above the background. -/
theorem z_orders_increasing (o : Options) (info : MODEINFO_T) (imgs : List IMAGE_T)
    (hlo : -2147483648 ≤ o.layer) (hup : o.layer < 2147483648) (hn : imgs.length ≤ 16) :
    (∀ k, (zOrders ((startupCalls o info imgs).take k)).Nodup) ∧
    ((o.background > 0 → -2147483648 < o.layer) →
      o.layer + imgs.length ≤ 2147483648 →
      (∀ i, i < imgs.length →
        imageZ (startupCalls o info imgs) i = some (o.layer + (i : Int))) ∧
      (o.background > 0 → backgroundZ (startupCalls o info imgs) = some (o.layer - 1)) ∧
      zOrders (startupCalls o info imgs) =
        (if o.background > 0 then [o.layer - 1] else []) ++
          (List.range imgs.length).map (fun i : Nat => o.layer + (i : Int)) ∧
      (zOrders (startupCalls o info imgs)).Pairwise (fun a b => a < b)) := by
  constructor
  · intro k
    exact (zOrders_startupCalls_nodup o info imgs hlo hup hn).sublist
      (zOrders_take_sublist _ k)
  · intro hbg hhi
    have hw : ∀ k : Nat, k < imgs.length → toInt32 (o.layer + (k : Int)) = o.layer + (k : Int) :=
      fun k hk => toInt32_of_range _ (by omega) (by omega)
    have hz : zOrders (startupCalls o info imgs) =
        (if o.background > 0 then [o.layer - 1] else []) ++
          (List.range imgs.length).map (fun i : Nat => o.layer + (i : Int)) := by
      rw [zOrders_startupCalls o info imgs hlo hup]
      have hmap : (List.range imgs.length).map (fun i : Nat => toInt32 (o.layer + (i : Int))) =
          (List.range imgs.length).map (fun i : Nat => o.layer + (i : Int)) :=
        List.map_congr_left (fun k hk => hw k (List.mem_range.1 hk))
      rw [hmap]
      by_cases hb : o.background > 0
      · have hwb : toInt32 (o.layer - 1) = o.layer - 1 :=
          toInt32_of_range _ (by have := hbg hb; omega) (by omega)
        simp [hb, hwb]
      · simp [hb]
    have hpw : (zOrders (startupCalls o info imgs)).Pairwise (fun a b => a < b) := by
      rw [hz]
      have hr : ((List.range imgs.length).map (fun i : Nat => o.layer + (i : Int))).Pairwise
          (fun a b => a < b) := by
        rw [List.pairwise_map]
        exact (List.pairwise_lt_range imgs.length).imp
          (by intro a b h; show o.layer + (a : Int) < o.layer + (b : Int); omega)
      split
      · simp only [List.singleton_append, List.pairwise_cons]
        refine ⟨?_, hr⟩
        intro z hzm
        obtain ⟨k, _, hk⟩ := List.mem_map.1 hzm
        have hk2 : o.layer + (k : Int) = z := hk
        omega
      · simpa using hr
    refine ⟨?_, ?_, hz, hpw⟩
    · intro i hi
      have h := imageZ_placeImages o info imgs 0 o.layer hlo hup i hi
      rw [Nat.zero_add, hw i hi] at h
      rw [← h]
      unfold startupCalls
      rw [imageZ_append_submit]
      by_cases hb : o.background > 0 <;> simp [hb, imageZ]
    · intro hb
      have hwb : toInt32 (o.layer - 1) = o.layer - 1 :=
        toInt32_of_range _ (by have := hbg hb; omega) (by omega)
      simp [startupCalls, hb, backgroundZ, hwb]

/-- C6, amended, at three inputs.  On the sample (`-l` left at 1, background
on) the layers get z-orders 0, 1, 2.  With `-l 2147483647` and one image the
two layers get `2147483646` and `2147483647`.  With `-l 2147483647` and two
images, where the increment wraps, the three z-orders are still pairwise
different. -/
theorem z_orders_increasing_witness :
    zOrders (startupCalls sampleOptions sampleInfo sampleImages) = [0, 1, 2] ∧
      imageZ (startupCalls sampleOptions sampleInfo sampleImages) 1 = some 2 ∧
      backgroundZ (startupCalls sampleOptions sampleInfo sampleImages) = some 0 ∧
      zOrders (startupCalls { layer := 2147483647 } sampleInfo [⟨100, 100⟩]) =
        [2147483646, 2147483647] ∧
      (zOrders ((startupCalls { layer := 2147483647 } sampleInfo sampleImages).take 8)).Nodup :=
  ⟨((z_orders_increasing sampleOptions sampleInfo sampleImages (by decide) (by decide)
      (by decide)).2 (fun _ => by decide) (by decide)).2.2.1,
    ((z_orders_increasing sampleOptions sampleInfo sampleImages (by decide) (by decide)
      (by decide)).2 (fun _ => by decide) (by decide)).1 1 (by decide),
    ((z_orders_increasing sampleOptions sampleInfo sampleImages (by decide) (by decide)
      (by decide)).2 (fun _ => by decide) (by decide)).2.1 (by decide),
    ((z_orders_increasing { layer := 2147483647 } sampleInfo [⟨100, 100⟩] (by decide)
      (by decide) (by decide)).2 (fun _ => by decide) (by decide)).2.2.1,
    (z_orders_increasing { layer := 2147483647 } sampleInfo sampleImages (by decide)
      (by decide) (by decide)).1 8⟩

/-! ## The load loop -/

theorem loadLoop_take (loadPng : String → Option IMAGE_T) (loadPngFile : Nat → Option IMAGE_T)
    (k i : Nat) (args : List String) :
    loadLoop loadPng loadPngFile k i (args.take k) = loadLoop loadPng loadPngFile k i args := by
  induction k generalizing i args with
  | zero => simp [loadLoop]
  | succ k ih =>
    cases args with
    | nil => rfl
    | cons p rest => simp only [List.take_succ_cons, loadLoop, ih]

theorem loadLoop_spec (loadPng : String → Option IMAGE_T) (loadPngFile : Nat → Option IMAGE_T)
    (k i : Nat) (args : List String)
    (hdec : ∀ j p, j < k → args[j]? = some p →
      (loadSlot loadPng loadPngFile (i + j) p).isSome = true) :
    ∃ slots, loadLoop loadPng loadPngFile k i args = some slots ∧
      slots.map Slot.path = args.take k ∧
      ∀ j s, slots[j]? = some s →
        loadSlot loadPng loadPngFile (i + j) s.path = some s.image := by
  induction k generalizing i args with
  | zero => exact ⟨[], by simp [loadLoop]⟩
  | succ k ih =>
    cases args with
    | nil => exact ⟨[], by simp [loadLoop]⟩
    | cons p rest =>
      have h0 := hdec 0 p (by omega) (by simp)
      obtain ⟨im, him⟩ := Option.isSome_iff_exists.1 h0
      have hrest : ∀ j q, j < k → rest[j]? = some q →
          (loadSlot loadPng loadPngFile (i + 1 + j) q).isSome = true := by
        intro j q hj hq
        have := hdec (j + 1) q (by omega) (by simpa using hq)
        rwa [show i + (j + 1) = i + 1 + j by omega] at this
      obtain ⟨slots, hl, hp, hs⟩ := ih (i + 1) rest hrest
      rw [Nat.add_zero] at him
      refine ⟨⟨p, im⟩ :: slots, ?_, ?_, ?_⟩
      · simp [loadLoop, him, hl]
      · simp [hp]
      · intro j s hj
        cases j with
        | zero =>
          simp only [List.getElem?_cons_zero, Option.some.injEq] at hj
          subst hj
          simpa using him
        | succ j =>
          simp only [List.getElem?_cons_succ] at hj
          have := hs j s hj
          rwa [show i + 1 + j = i + (j + 1) by omega] at this

/-- C7: when the positional arguments decode, the load loop returns (it does
not exit), the number of loaded images is `min (number of arguments) 16`, the
filled slots hold the first sixteen arguments in order, each with the image
decoded from it, and nothing after the sixteenth argument influences the
result. -/
theorem load_capacity (loadPng : String → Option IMAGE_T) (loadPngFile : Nat → Option IMAGE_T)
    (args : List String)
    (hdec : ∀ i p, args[i]? = some p → (loadSlot loadPng loadPngFile i p).isSome = true) :
    ∃ slots, loadImages loadPng loadPngFile args = some slots ∧
      slots.length = min args.length 16 ∧
      slots.length ≤ 16 ∧
      slots.map Slot.path = args.take 16 ∧
      (∀ i s, slots[i]? = some s → loadSlot loadPng loadPngFile i s.path = some s.image) ∧
      (∀ more, 16 ≤ args.length →
        loadImages loadPng loadPngFile (args ++ more) = some slots) := by
  obtain ⟨slots, hl, hp, hs⟩ := loadLoop_spec loadPng loadPngFile 16 0 args
    (by intro j p _ hj; simpa using hdec j p hj)
  have hlen : slots.length = min args.length 16 := by
    have := congrArg List.length hp
    simp only [List.length_map, List.length_take] at this
    omega
  refine ⟨slots, hl, hlen, by omega, hp, ?_, ?_⟩
  · intro i s hi
    simpa using hs i s hi
  · intro more h16
    unfold loadImages
    rw [← loadLoop_take loadPng loadPngFile 16 0 (args ++ more),
      List.take_append_of_le_length h16, loadLoop_take]
    exact hl

/-- C7 on seventeen arguments: sixteen images are loaded, from the first
sixteen arguments; the seventeenth is never looked at. -/
theorem load_capacity_witness :
    ∃ slots, loadImages sampleLoadPng sampleLoadPngFile sampleArgs = some slots ∧
      slots.length = min sampleArgs.length 16 ∧
      slots.length ≤ 16 ∧
      slots.map Slot.path = sampleArgs.take 16 ∧
      (∀ i s, slots[i]? = some s →
        loadSlot sampleLoadPng sampleLoadPngFile i s.path = some s.image) ∧
      (∀ more, 16 ≤ sampleArgs.length →
        loadImages sampleLoadPng sampleLoadPngFile (sampleArgs ++ more) = some slots) :=
  load_capacity sampleLoadPng sampleLoadPngFile sampleArgs
    (by intro i p _; unfold loadSlot; split <;> rfl)

/-! ## The run loop: index safety -/

theorem handleKey_safe (cfg : Config) (s : Ctl) (key : Int)
    (hinv : 0 < cfg.images → s.activeImage < cfg.images) :
    (∀ i x y, Call.moveImageLayer i x y ∈ (handleKey cfg s key).1 → i < cfg.images) ∧
    (0 < cfg.images → (handleKey cfg s key).2.activeImage < cfg.images) := by
  unfold handleKey
  simp only
  split
  · split
    · rename_i hnum
      have hpos : 0 < cfg.images := by omega
      constructor
      · intro i x y hmem
        simp only [List.mem_cons, parkAt, showAt, Call.moveImageLayer.injEq, List.mem_singleton,
          reduceCtorEq, false_or, or_false, List.not_mem_nil] at hmem
        rcases hmem with h | h
        · rw [h.1]; exact hinv hpos
        · rw [h.1]; exact hnum
      · intro _
        exact lt_of_le_of_lt (Nat.mod_le _ _) hnum
    · exact ⟨by simp, hinv⟩
  · split
    · refine ⟨?_, hinv⟩
      intro i x y hmem
      simp only [List.singleton_append, List.mem_cons, List.mem_append, List.mem_map,
        List.mem_range, List.mem_singleton, showAt, Call.moveImageLayer.injEq, reduceCtorEq,
        false_or, or_false, List.not_mem_nil] at hmem
      obtain ⟨j, hj, hji, _⟩ := hmem
      omega
    · split
      · refine ⟨?_, hinv⟩
        intro i x y hmem
        simp only [List.singleton_append, List.mem_cons, List.mem_append, List.mem_map,
          List.mem_range, List.mem_singleton, parkAt, Call.moveImageLayer.injEq, reduceCtorEq,
          false_or, or_false, List.not_mem_nil] at hmem
        obtain ⟨j, hj, hji, _⟩ := hmem
        omega
      · split
        · exact ⟨by simp, hinv⟩
        · exact ⟨by simp, hinv⟩

theorem iteration_safe (cfg : Config) (key : Option Int) (s : State)
    (hinv : 0 < cfg.images → s.ctl.activeImage < cfg.images) :
    (∀ i x y, Call.moveImageLayer i x y ∈ (iteration cfg key s).1 → i < cfg.images) ∧
    (0 < cfg.images → (iteration cfg key s).2.ctl.activeImage < cfg.images) := by
  unfold iteration
  simp only
  split
  · exact ⟨(handleKey_safe cfg s.ctl _ hinv).1, (handleKey_safe cfg s.ctl _ hinv).2⟩
  · exact ⟨by simp, hinv⟩

theorem runLoop_safe (cfg : Config) (keys : List (Option Int)) (s : State)
    (hinv : 0 < cfg.images → s.ctl.activeImage < cfg.images) :
    (∀ i x y, Call.moveImageLayer i x y ∈ (runLoop cfg keys s).1 → i < cfg.images) ∧
    (0 < cfg.images → (runLoop cfg keys s).2.ctl.activeImage < cfg.images) := by
  induction keys generalizing s with
  | nil => exact ⟨by simp [runLoop], hinv⟩
  | cons k ks ih =>
    unfold runLoop
    split
    · have h1 := iteration_safe cfg k s hinv
      have h2 := ih (iteration cfg k s).2 h1.2
      refine ⟨?_, h2.2⟩
      intro i x y hmem
      rcases List.mem_append.1 hmem with h | h
      · exact h1.1 i x y h
      · exact h2.1 i x y h
    · exact ⟨by simp, hinv⟩

/-- C10: from the state in which `main` enters the run loop, for any images
and any finite sequence of key polls, every `moveImageLayer` call the loop
makes indexes `imageLayer`, `xPos` and `yPos` below the number of loaded
images (all three arrays are filled exactly that far); whenever at least one
image is loaded the active index is below that number; and with no image
loaded a digit key makes no call at all. -/
theorem run_loop_index_safety (o : Options) (info : MODEINFO_T) (imgs : List IMAGE_T)
    (keys : List (Option Int)) :
    (mainConfig o info imgs).images = imgs.length ∧
    (mainConfig o info imgs).xPos.length = imgs.length ∧
    (mainConfig o info imgs).yPos.length = imgs.length ∧
    (∀ i x y,
      Call.moveImageLayer i x y ∈
        (runLoop (mainConfig o info imgs) keys (mainState o info imgs)).1 →
      i < imgs.length) ∧
    (0 < imgs.length →
      (runLoop (mainConfig o info imgs) keys (mainState o info imgs)).2.ctl.activeImage <
        imgs.length) ∧
    (imgs.length = 0 → ∀ (s : Ctl) (d : Nat), d ≤ 9 →
      handleKey (mainConfig o info imgs) s (digitKey d) = ([], s)) := by
  have hn : (mainConfig o info imgs).images = imgs.length := rfl
  have hsafe := runLoop_safe (mainConfig o info imgs) keys (mainState o info imgs)
    (by intro h; exact h)
  refine ⟨hn, ?_, ?_, hsafe.1, hsafe.2, ?_⟩
  · simp [mainConfig, placeImages_xPos]
  · simp [mainConfig, placeImages_yPos]
  · intro h0 s d hd
    rw [handleKey_digit _ s d hd, if_neg (by rw [hn, h0]; omega)]

/-- C10 on the sample, with the keys `'1'`, `'v'`, `'9'`, `'i'`, `'0'`: the
calls made move only images 0 and 1, and image 0 is active at the end. -/
theorem run_loop_index_safety_witness :
    (∀ i x y,
      Call.moveImageLayer i x y ∈
        (runLoop sampleConfig [some 49, some 118, none, some 57, some 105, some 48]
          sampleState).1 →
      i < 2) ∧
    (runLoop sampleConfig [some 49, some 118, none, some 57, some 105, some 48]
      sampleState).2.ctl.activeImage = 0 :=
  ⟨(run_loop_index_safety sampleOptions sampleInfo sampleImages
      [some 49, some 118, none, some 57, some 105, some 48]).2.2.2.1, by decide⟩

/-! ## The run loop: timeout -/

theorem iteration_idle (cfg : Config) (s : State) :
    iteration cfg none s = ([], ⟨tick cfg s.ctl, s.display⟩) := by
  unfold iteration
  cases cfg.interactive <;> rfl

theorem runLoop_idle_succ (cfg : Config) (k : Nat) (s : State) (hrun : s.ctl.run = true) :
    runLoop cfg (List.replicate (k + 1) none) s =
      runLoop cfg (List.replicate k none) ⟨tick cfg s.ctl, s.display⟩ := by
  rw [List.replicate_succ, runLoop, if_pos hrun, iteration_idle]
  simp

/-- With no key, as long as the clock stays below the timeout (and below
`2^32`), the loop keeps running and the clock is the sum of the sleeps. -/
theorem runLoop_idle_before (cfg : Config) (j : Nat) (s : State) (hrun : s.ctl.run = true)
    (hT : s.ctl.currentTime + 10 * j < cfg.timeout) (h32 : cfg.timeout ≤ 4294967296) :
    (runLoop cfg (List.replicate j none) s).2.ctl =
      { s.ctl with currentTime := s.ctl.currentTime + 10 * j } := by
  induction j generalizing s with
  | zero => simp [runLoop]
  | succ j ih =>
    rw [runLoop_idle_succ cfg j s hrun]
    have ht : (s.ctl.currentTime + sleepMilliseconds) % 4294967296 = s.ctl.currentTime + 10 := by
      unfold sleepMilliseconds
      omega
    have htick : tick cfg s.ctl = { s.ctl with currentTime := s.ctl.currentTime + 10 } := by
      unfold tick
      simp only [ht]
      rw [if_neg (by omega)]
    rw [ih ⟨tick cfg s.ctl, s.display⟩ (by rw [htick]; exact hrun)
      (by rw [htick]; simp only; omega)]
    rw [htick]
    simp only [Ctl.mk.injEq, true_and]
    omega

/-- With no key, the pass in which the clock first reaches the timeout
clears the running flag. -/
theorem runLoop_idle_fire (cfg : Config) (j : Nat) (s : State) (hrun : s.ctl.run = true)
    (h0 : 0 < cfg.timeout)
    (hlt : s.ctl.currentTime + 10 * j < cfg.timeout)
    (hge : cfg.timeout ≤ s.ctl.currentTime + 10 * (j + 1))
    (h32 : s.ctl.currentTime + 10 * (j + 1) < 4294967296) :
    (runLoop cfg (List.replicate (j + 1) none) s).2.ctl.run = false := by
  induction j generalizing s with
  | zero =>
    rw [runLoop_idle_succ cfg 0 s hrun]
    have ht : (s.ctl.currentTime + sleepMilliseconds) % 4294967296 = s.ctl.currentTime + 10 := by
      unfold sleepMilliseconds
      omega
    simp only [List.replicate_zero, runLoop, tick, ht]
    rw [if_pos ⟨by omega, by omega⟩]
  | succ j ih =>
    rw [runLoop_idle_succ cfg (j + 1) s hrun]
    have ht : (s.ctl.currentTime + sleepMilliseconds) % 4294967296 = s.ctl.currentTime + 10 := by
      unfold sleepMilliseconds
      omega
    have htick : tick cfg s.ctl = { s.ctl with currentTime := s.ctl.currentTime + 10 } := by
      unfold tick
      simp only [ht]
      rw [if_neg (by omega)]
    apply ih
    · rw [htick]; exact hrun
    · rw [htick]; simp only; omega
    · rw [htick]; simp only; omega
    · rw [htick]; simp only; omega

/-- The timeout when it can be reached without the clock wrapping: for a
timeout `T` with `0 < T <= 4294967290` and no key, the loop is still running
after every `j < k` passes and the running flag is false after exactly
`k = (T + 9) / 10` passes, where `T <= 10 * k < T + 10`. -/
theorem timeout_fires_below_wrap (cfg : Config) (d : Display)
    (h0 : 0 < cfg.timeout) (hT : cfg.timeout ≤ 4294967290) :
    (∀ j, j < (cfg.timeout + 9) / 10 →
      (runLoop cfg (List.replicate j none) ⟨Ctl.init, d⟩).2.ctl.run = true) ∧
    (runLoop cfg (List.replicate ((cfg.timeout + 9) / 10) none) ⟨Ctl.init, d⟩).2.ctl.run =
      false ∧
    cfg.timeout ≤ 10 * ((cfg.timeout + 9) / 10) ∧
    10 * ((cfg.timeout + 9) / 10) < cfg.timeout + 10 := by
  refine ⟨?_, ?_, by omega, by omega⟩
  · intro j hj
    rw [runLoop_idle_before cfg j ⟨Ctl.init, d⟩ rfl (by simp only [Ctl.init]; omega) (by omega)]
    rfl
  · obtain ⟨k, hk⟩ : ∃ k, (cfg.timeout + 9) / 10 = k + 1 := ⟨(cfg.timeout + 9) / 10 - 1, by omega⟩
    rw [hk]
    apply runLoop_idle_fire cfg k ⟨Ctl.init, d⟩ rfl h0 <;> simp only [Ctl.init] <;> omega

/-- C3 fails on the code for the largest timeouts.  With `-t -1` the stored
timeout is `4294967295`; the `uint32_t` clock advances by 10 modulo `2^32`, so
it is always even and never reaches the timeout: with no key, the running
flag is still true after any number of passes. -/
theorem timeout_never_fires_at_max (cfg : Config) (d : Display) (k : Nat) :
    parseTimeout (-1) = 4294967295 ∧
    (runLoop { cfg with timeout := parseTimeout (-1) } (List.replicate k none)
      ⟨Ctl.init, d⟩).2.ctl.run = true := by
  have hT : parseTimeout (-1) = 4294967295 := by decide
  refine ⟨hT, ?_⟩
  rw [hT]
  have key : ∀ (k : Nat) (s : State), s.ctl.run = true → s.ctl.currentTime % 2 = 0 →
      (runLoop { cfg with timeout := 4294967295 } (List.replicate k none) s).2.ctl.run =
        true := by
    intro k
    induction k with
    | zero => intro s hrun _; simpa [runLoop] using hrun
    | succ k ih =>
      intro s hrun heven
      rw [runLoop_idle_succ _ k s hrun]
      apply ih
      · simp only [tick, sleepMilliseconds]
        rw [if_neg (by omega)]
        exact hrun
      · simp only [tick, sleepMilliseconds]
        omega
  exact key k ⟨Ctl.init, d⟩ rfl rfl

end Pipng
